import Mathlib

/-!
# Verification of the `ed_scrap` news-scraping pipeline

Shallow embedding of the two scraper scripts of the repository
(`scraper.py`, the El Deber scraper, and `scraper_anf.py`, the ANF /
Noticias Fides scraper) together with proofs settling the frozen claims
about them.

Modelling conventions:
* Python strings are Lean `String` (lists of unicode scalars);
  `None` / `NaN` inputs are modelled by the `PyVal` type where a
  function's source inspects `isinstance`.
* HTTP fetching is modelled by a function `String → Option Page`:
  `none` stands for a request exception or a non-success status.
* BeautifulSoup selector results are modelled by record types holding
  the text of the matched nodes (`Option String` when the selector may
  match nothing); the claims under study are about what the scripts do
  with the selected text, not about HTML parsing itself.
* The persistent store is modelled by its set of stored URLs (a
  `List String`), since every claim about persistence is keyed on the
  `url` column only.
* `unicodedata.normalize("NFKC", ·)` is a Python library call; it is
  kept abstract as a parameter `nfkc : String → String` of the text
  cleaning function.  The claims that depend on its properties take the
  relevant (Unicode-standard) facts as explicit hypotheses.
* Pandas column operations (lines 193-215 of `scraper.py`) are applied
  row-wise in the source; they are modelled as the corresponding
  per-record functions mapped over lists.  Pandas dtype internals are
  outside the embedding.
-/

set_option autoImplicit false

namespace EdScrap

/-! ## Whitespace and text cleaning (`clean_text`, scraper.py lines 16-21,
scraper_anf.py lines 22-27; both files define the identical function) -/

/-- Python's whitespace class: the characters matched by `\s` in `re`
(for `str` patterns) and stripped by `str.strip()`. -/
def isPyWs (c : Char) : Bool :=
  c = ' ' ∨ c = '\t' ∨ c = '\n' ∨ c = '\r' ∨ c = '\x0b' ∨ c = '\x0c' ∨
  c = '\u001c' ∨ c = '\u001d' ∨ c = '\u001e' ∨ c = '\u001f' ∨ c = '\u0085' ∨
  c = ' ' ∨ c = ' ' ∨ (' ' ≤ c ∧ c ≤ ' ') ∨
  c = ' ' ∨ c = ' ' ∨ c = ' ' ∨ c = ' ' ∨ c = '　'

/-- Python `re.sub(r"\s+", " ", ·)` on a character list: every maximal run of
whitespace characters is replaced by a single ASCII space.  The boolean
argument records whether the previous character was whitespace. -/
def collapseGo : Bool → List Char → List Char
  | _, [] => []
  | prevWs, c :: cs =>
    if isPyWs c then
      if prevWs then collapseGo true cs else ' ' :: collapseGo true cs
    else c :: collapseGo false cs

/-- Python `re.sub(r"\s+", " ", s)`. -/
def collapseWsStr (s : String) : String := ⟨collapseGo false s.data⟩

/-- Python `str.strip()` on a character list: drop whitespace from both ends. -/
def stripWsL (l : List Char) : List Char :=
  ((l.dropWhile isPyWs).reverse.dropWhile isPyWs).reverse

/-- Python `s.strip()`. -/
def stripWsStr (s : String) : String := ⟨stripWsL s.data⟩

/-- The function `clean_text` (scraper.py lines 16-21 / scraper_anf.py lines 22-27):
empty (falsy) input returns `""`; otherwise NFKC-normalize, collapse
whitespace runs to single spaces and strip.  The library call
`unicodedata.normalize("NFKC", ·)` is the abstract parameter `nfkc`. -/
def clean_text (nfkc : String → String) (s : String) : String :=
  if s = "" then "" else stripWsStr (collapseWsStr (nfkc s))

/-- Python `s.split(sep)` for a single-character separator: split on
every occurrence, keeping empty parts (the result is never empty). -/
def splitOnCharGo (sep : Char) : List Char → List Char → List String
  | acc, [] => [⟨acc.reverse⟩]
  | acc, c :: cs =>
    if c = sep then ⟨acc.reverse⟩ :: splitOnCharGo sep [] cs
    else splitOnCharGo sep (c :: acc) cs

/-- Python `s.split(sep)`. -/
def splitOnChar (sep : Char) (s : String) : List String :=
  splitOnCharGo sep [] s.data

/-- Python `sep.join(parts)`. -/
def joinWith (sep : String) : List String → String
  | [] => ""
  | [x] => x
  | x :: xs => x ++ sep ++ joinWith sep xs

/-- Python `str.lower()` on the characters this pipeline meets. -/
def lowerChar (c : Char) : Char :=
  if 'A' ≤ c ∧ c ≤ 'Z' then c.toLower
  else if c = 'Á' then 'á' else if c = 'É' then 'é' else if c = 'Í' then 'í'
  else if c = 'Ó' then 'ó' else if c = 'Ú' then 'ú' else if c = 'Ü' then 'ü'
  else if c = 'Ñ' then 'ñ' else c

/-- Python `s.lower()`. -/
def lowerStr (s : String) : String := ⟨s.data.map lowerChar⟩

/-! ## Python values and timestamps -/

/-- The Python values that reach the normalization helpers: a string, or
a non-string (`None`, or pandas `NaN` from a missing split result). -/
inductive PyVal where
  | pyNone
  | nan
  | pyStr (s : String)
deriving DecidableEq

/-- A parsed timestamp, as produced by `datetime.strptime` with format
`"%d-%m-%Y %H:%M"` (validity is enforced at construction sites). -/
structure DateTime where
  year : Nat
  month : Nat
  day : Nat
  hour : Nat
  minute : Nat
deriving DecidableEq

/-- Exceptions that the translated Python code can raise. -/
inductive PyExn where
  | indexError
  | valueError
deriving DecidableEq

/-! ## Date parsing (`parse_fecha`, scraper.py lines 133-154) -/

/-- The fixed Spanish month table `meses` (scraper.py lines 133-137). -/
def meses_table : List (String × String) :=
  [("enero", "01"), ("febrero", "02"), ("marzo", "03"), ("abril", "04"),
   ("mayo", "05"), ("junio", "06"), ("julio", "07"), ("agosto", "08"),
   ("septiembre", "09"), ("octubre", "10"), ("noviembre", "11"), ("diciembre", "12")]

/-- Python `str.split()` with no argument: split on whitespace runs,
discarding empty tokens.  The accumulator holds the current token,
reversed. -/
def wsTokGo : List Char → List Char → List (List Char)
  | [], [] => []
  | [], acc => [acc.reverse]
  | c :: cs, acc =>
    if isPyWs c then
      match acc with
      | [] => wsTokGo cs []
      | _ => acc.reverse :: wsTokGo cs []
    else wsTokGo cs (c :: acc)

/-- Python `s.split()`. -/
def pySplitWsStr (s : String) : List String :=
  (wsTokGo s.data []).map fun l => ⟨l⟩

/-- Greedily consume up to `max` ASCII digits (the `(\d{1,2})` /
`(\d{1,4})` groups of CPython's `strptime` regexes). -/
def takeDigits : Nat → List Char → List Char × List Char
  | 0, cs => ([], cs)
  | _ + 1, [] => ([], [])
  | n + 1, c :: cs =>
    if c.isDigit then
      let (d, r) := takeDigits n cs
      (c :: d, r)
    else ([], c :: cs)

/-- Digit characters to the number they denote (`int(...)`). -/
def digitsToNat (ds : List Char) : Nat :=
  ds.foldl (fun n c => n * 10 + (c.toNat - '0'.toNat)) 0

/-- Gregorian leap-year rule used by `datetime`'s day-of-month check. -/
def isLeap (y : Nat) : Bool := (y % 4 = 0 && y % 100 ≠ 0) || y % 400 = 0

/-- Days in a month, as validated by the `datetime` constructor. -/
def daysInMonth (y m : Nat) : Nat :=
  if m = 2 then (if isLeap y then 29 else 28)
  else if m = 4 ∨ m = 6 ∨ m = 9 ∨ m = 11 then 30
  else 31

/-- Semantics of `datetime.strptime(s, "%d-%m-%Y %H:%M")`, returning `none` where the
Python call raises `ValueError`: `%d`/`%m`/`%H`/`%M` match one or two
digits, `%Y` one to four, the format's space matches one or more
whitespace characters, the whole string must be consumed, and the
resulting field values must form a valid calendar timestamp. -/
def parseDMYHM (s : String) : Option DateTime :=
  let (dds, r1) := takeDigits 2 s.data
  if dds = [] then none else
  match r1 with
  | '-' :: r2 =>
    let (mds, r3) := takeDigits 2 r2
    if mds = [] then none else
    match r3 with
    | '-' :: r4 =>
      let (yds, r5) := takeDigits 4 r4
      if yds = [] then none else
      match r5 with
      | c :: r6 =>
        if isPyWs c then
          let r7 := r6.dropWhile isPyWs
          let (hds, r8) := takeDigits 2 r7
          if hds = [] then none else
          match r8 with
          | ':' :: r9 =>
            let (mins, r10) := takeDigits 2 r9
            if mins = [] then none else
            if r10 = [] then
              let d := digitsToNat dds
              let m := digitsToNat mds
              let y := digitsToNat yds
              let hh := digitsToNat hds
              let mm := digitsToNat mins
              if 1 ≤ y ∧ y ≤ 9999 ∧ 1 ≤ m ∧ m ≤ 12 ∧ 1 ≤ d ∧
                 d ≤ daysInMonth y m ∧ hh ≤ 23 ∧ mm ≤ 59 then
                some ⟨y, m, d, hh, mm⟩
              else none
            else none
          | _ => none
        else none
      | [] => none
    | _ => none
  | _ => none

/-- The `try` block of `parse_fecha` (scraper.py lines 142-152), with
the exceptions it can raise made explicit: `partes[2]` / `partes[4]`
raise `IndexError` on short token lists, `strptime` raises `ValueError`
on unparseable text.  `Except.ok none` is the `return None` taken when
the month name is not in `meses`. -/
def parse_fecha_body (s : String) : Except PyExn (Option DateTime) :=
  let partes := pySplitWsStr s
  match partes.get? 0 with
  | none => .error .indexError
  | some dia =>
    match partes.get? 2 with
    | none => .error .indexError
    | some p2 =>
      let mes := List.lookup p2 meses_table
      match partes.get? 4 with
      | none => .error .indexError
      | some anio =>
        match partes.getLast? with
        | none => .error .indexError
        | some hora =>
          match mes with
          | none => .ok none
          | some m =>
            match parseDMYHM (dia ++ "-" ++ m ++ "-" ++ anio ++ " " ++ hora) with
            | none => .error .valueError
            | some dt => .ok (some dt)

/-- The function `parse_fecha` (scraper.py lines 139-154): non-string or blank input
returns `None`; otherwise the body runs under `try`, and any exception
is caught and turned into `None`. -/
def parse_fecha : PyVal → Option DateTime
  | .pyStr s =>
    if stripWsStr s = "" then none
    else
      match parse_fecha_body s with
      | .error _ => none
      | .ok r => r
  | _ => none

/-- The function `parse_fecha` in the exception monad: the whole function, with its
`try`/`except` translated as a handler mapping every exception to
`Except.ok none`.  Settling claim C6 amounts to showing this never
produces `Except.error`. -/
def parse_fecha_exc (v : PyVal) : Except PyExn (Option DateTime) :=
  match v with
  | .pyStr s =>
    if stripWsStr s = "" then .ok none
    else
      match parse_fecha_body s with
      | .error _ => .ok none
      | .ok r => .ok r
  | _ => .ok none

/-! ## El Deber: listing-page scraping (scraper.py lines 34-97) -/

/-- A candidate article discovered on a listing page: the cleaned title
and the cleaned, absolutized link computed by scraper.py lines 52-57.
(The constant `snapshot_date` and `source` fields of the dict built on
lines 66-71 are omitted; no claim mentions them.) -/
structure Cand where
  title : String
  link : String
deriving DecidableEq

/-- The per-`article`-element loop of `scrape_section_page`
(scraper.py lines 51-73): drop entries with an empty title or link
(line 59), drop entries whose link is already stored (lines 62-63,
including the truthiness guard `existing_urls and ...`), append the
rest and record that something new was found (lines 65-71). -/
def scrape_entries (existing : List String) : List Cand → List Cand × Bool
  | [] => ([], false)
  | e :: rest =>
    let r := scrape_entries existing rest
    if e.title = "" ∨ e.link = "" then r
    else if existing ≠ [] ∧ e.link ∈ existing then r
    else (⟨e.title, e.link⟩ :: r.1, true)

/-- The function `scrape_section_page` (scraper.py lines 34-73).  The fetched page is
`Option (List Cand)`: `none` models a request exception or a
non-200 status, both of which return `([], False)` (lines 39-46). -/
def scrape_section_page (existing : List String) (page : Option (List Cand)) :
    List Cand × Bool :=
  match page with
  | none => ([], false)
  | some es => scrape_entries existing es

/-- The listing URL for page `pn` of a section (scraper.py lines 85-88):
page 0 is the unnumbered section page, later pages append `/{pn}`. -/
def ed_page_url (base sec : String) (pn : Nat) : String :=
  if pn = 0 then base ++ sec else base ++ sec ++ "/" ++ toString pn

/-- The inner pagination loop of `scrape_initial_run` (scraper.py lines
84-95) for one section, starting at page `pn` with `remaining` pages of
budget left.  Besides the collected articles it returns the list of
listing URLs actually requested, used to state the early-stop claim:
the loop `break`s as soon as a page yields no new article. -/
def scrape_section_pages (site : String → Option (List Cand))
    (existing : List String) (base sec : String) :
    Nat → Nat → List Cand × List String
  | _, 0 => ([], [])
  | pn, r + 1 =>
    let url := ed_page_url base sec pn
    let res := scrape_section_page existing (site url)
    if res.2 then
      let rest := scrape_section_pages site existing base sec (pn + 1) r
      (res.1 ++ rest.1, url :: rest.2)
    else (res.1, [url])

/-- The function `scrape_initial_run` (scraper.py lines 80-97). -/
def scrape_initial_run (site : String → Option (List Cand)) (base : String)
    (sections : List String) (num_pages : Nat) (existing : List String) :
    List Cand :=
  (sections.map fun sec => (scrape_section_pages site existing base sec 0 num_pages).1).flatten

/-- The hard-coded base URL `pagina_web` (scraper.py line 171). -/
def ed_base_url : String := "https://eldeber.com.bo/"

/-- The hard-coded section list (scraper.py line 173). -/
def ed_sections : List String :=
  ["pais", "economia", "santa-cruz", "opinion", "mundo", "educacion-y-sociedad"]

/-! ## El Deber: full-article extraction (scraper.py lines 102-128) -/

/-- The selector results on one article page: the text of `h1`,
`div.articulo__fecha`, `p.autor__firmante`, `div.articulo__intro` and
`main.articulo__cuerpo`, each `none` when the selector matches
nothing. -/
structure EDDoc where
  h1 : Option String
  fecha : Option String
  autor : Option String
  intro : Option String
  cuerpo : Option String
deriving DecidableEq

/-- The raw record built by `extract_full_article`. -/
structure EDRecord where
  headline : String
  date_extracted : String
  author : String
  subheadline : String
  content : String
  url : String
deriving DecidableEq

/-- The pattern `clean_text(tag.get_text(...)) if tag else ""`, the per-field
pattern of lines 110-123. -/
def cleanOpt (nfkc : String → String) : Option String → String
  | some t => clean_text nfkc t
  | none => ""

/-- The function `extract_full_article` (scraper.py lines 102-128): a fetch failure
(exception or non-200, lines 103-106 and 127-128) yields the record
with every field empty except `url`; otherwise each field is the
cleaned text of its selector, `""` when the selector matched nothing. -/
def extract_full_article (nfkc : String → String)
    (fetch : String → Option EDDoc) (url : String) : EDRecord :=
  match fetch url with
  | none => ⟨"", "", "", "", "", url⟩
  | some d =>
    ⟨cleanOpt nfkc d.h1, cleanOpt nfkc d.fecha, cleanOpt nfkc d.autor,
     cleanOpt nfkc d.intro, cleanOpt nfkc d.cuerpo, url⟩

/-! ## El Deber: content split and date columns (scraper.py lines 202-209) -/

/-- The boilerplate marker of scraper.py line 202.  Note: the source
literal is the mojibake rendering `MÃ¡s noticias` (the UTF-8
bytes of `Más` decoded as Latin-1), not the properly encoded
`Más noticias`. -/
def ed_marker : String := "MÃ¡s noticias"

/-- Indices of `s` at which `pat` occurs. -/
def occIndices (pat s : List Char) : List Nat :=
  (List.range (s.length + 1)).filter fun i => List.isPrefixOf pat (s.drop i)

/-- Python `s.rsplit(pat, 1)` for a nonempty literal `pat`: split at the last
occurrence; `(s, none)` when `pat` does not occur (so that index `[1]`
of the Python result is `NaN`). -/
def rsplitLast (pat s : String) : String × Option String :=
  match (occIndices pat.data s.data).getLast? with
  | none => (s, none)
  | some i => (⟨s.data.take i⟩, some ⟨s.data.drop (i + pat.data.length)⟩)

/-- The column `df_diario["proper_content"]` (scraper.py line 203):
`content.rsplit(marker, 1)[0].strip()`. -/
def ed_proper_content (content : String) : String :=
  stripWsStr (rsplitLast ed_marker content).1

/-- The column `df_diario["suggested_news"]` (scraper.py line 204):
`content.rsplit(marker, 1)[1]`, `NaN` filled with `""`, stripped. -/
def ed_suggested_news (content : String) : String :=
  stripWsStr ((rsplitLast ed_marker content).2.getD "")

/-- Python `s.split(sep, 1)`: the part before the first occurrence of
`sep`, and the remainder (`none` when `sep` does not occur, so that
index `[1]` is `NaN`). -/
def splitFirstGo (sep : Char) : List Char → List Char → String × Option String
  | acc, [] => (⟨acc.reverse⟩, none)
  | acc, c :: cs =>
    if c = sep then (⟨acc.reverse⟩, some ⟨cs⟩) else splitFirstGo sep (c :: acc) cs

/-- Python `s.split(sep, 1)` as a pair. -/
def splitFirstOn (sep : Char) (s : String) : String × Option String :=
  splitFirstGo sep [] s.data

/-- The `weekday` column (scraper.py line 207):
`date_extracted.split(",", 1)[0].strip()`. -/
def ed_weekday (d : String) : String := stripWsStr (splitFirstOn ',' d).1

/-- The `datetime` column (scraper.py lines 208-209):
`date_extracted.split(",", 1)[1].strip()` piped into `parse_fecha`; when
the split has no second part the column holds `NaN`, and `parse_fecha`
receives a non-string. -/
def ed_published (d : String) : Option DateTime :=
  match (splitFirstOn ',' d).2 with
  | none => parse_fecha .nan
  | some t => parse_fecha (.pyStr (stripWsStr t))

/-! ## El Deber: section from URL (scraper.py lines 159-166) -/

/-- Locate the first `://` and return what follows it. -/
def afterSchemeMark : List Char → Option (List Char)
  | ':' :: '/' :: '/' :: rest => some rest
  | _ :: cs => afterSchemeMark cs
  | [] => none

/-- Semantics of `urlparse(url).path` for the URLs the pipeline handles: drop the
fragment and query, then (when a `scheme://netloc` part is present)
the path is what starts at the first `/` after the authority; without
`://` the whole remainder is the path. -/
def edUrlPath (url : String) : String :=
  let noFrag := url.data.takeWhile fun c => c ≠ '#'
  let noQuery := noFrag.takeWhile fun c => c ≠ '?'
  match afterSchemeMark noQuery with
  | some rest => ⟨rest.dropWhile fun c => c ≠ '/'⟩
  | none => ⟨noQuery⟩

/-- Python `path.strip("/")`. -/
def stripSlashes (s : String) : String :=
  ⟨((s.data.dropWhile fun c => c = '/').reverse.dropWhile fun c => c = '/').reverse⟩

/-- The function `extract_section` (scraper.py lines 159-166), on strings: strip the
path's surrounding slashes; an empty path yields `"unknown"`, otherwise
the first `/`-separated segment, lowercased. -/
def ed_extract_section (url : String) : String :=
  let path := stripSlashes (edUrlPath url)
  if path = "" then "unknown" else lowerStr ((splitOnChar '/' path).headD "")

/-- The function `extract_section` including the `isinstance` guard of lines
160-161: non-string input yields `"unknown"`. -/
def ed_extract_section_py : PyVal → String
  | .pyStr s => ed_extract_section s
  | _ => "unknown"

/-! ## El Deber: normalized record, dedup, upsert, main flow
(scraper.py lines 192-225) -/

/-- The columns of `df_diario` that the claims mention, after the
normalization lines 202-215 (the derived `date`/`hour`/`snapshot_date`
columns are projections of `published` and of the wall clock). -/
structure EDNorm where
  proper_content : String
  suggested_news : String
  weekday : String
  published : Option DateTime
  section_url : String
  url : String
deriving DecidableEq

/-- Lines 202-215 applied to one raw record. -/
def ed_normalize (r : EDRecord) : EDNorm :=
  ⟨ed_proper_content r.content, ed_suggested_news r.content,
   ed_weekday r.date_extracted, ed_published r.date_extracted,
   ed_extract_section r.url, r.url⟩

/-- Semantics of `drop_duplicates(subset=["link"])` (scraper.py line 193): keep the
first candidate for each link. -/
def dedupGo (seen : List String) : List Cand → List Cand
  | [] => []
  | c :: cs =>
    if c.link ∈ seen then dedupGo seen cs
    else c :: dedupGo (c.link :: seen) cs

/-- Semantics of `df.drop_duplicates(subset=["link"])`. -/
def dedupByLink (cands : List Cand) : List Cand := dedupGo [] cands

/-- One `INSERT ... ON CONFLICT (url) DO NOTHING` (scraper.py lines
223-224), on the store's URL-key view: a duplicate key is a no-op,
never an error. -/
def ed_upsert (store : List String) (u : String) : List String :=
  if u ∈ store then store else store ++ [u]

/-- Lines 192-225 of the main flow, given the listing candidates: filter
out empty titles, deduplicate by link, and unless the frame is empty,
extract every remaining link (line 198; normalization lines 202-215
leaves `url` untouched) and insert each row with
`ON CONFLICT DO NOTHING` (lines 221-225).  The store is its URL set. -/
def ed_stage2 (nfkc : String → String) (fetchArt : String → Option EDDoc)
    (store : List String) (cands : List Cand) : List String :=
  let df := dedupByLink (cands.filter fun c => c.title ≠ "")
  if df.length = 0 then store
  else
    (df.map fun c => extract_full_article nfkc fetchArt c.link).foldl
      (fun st r => ed_upsert st r.url) store

/-- The whole scraper.py run (lines 176-225): load the existing URLs,
scrape all sections with a budget of 6 pages, then filter, extract and
upsert.  Returns the final store. -/
def ed_full_pipeline (nfkc : String → String)
    (siteList : String → Option (List Cand)) (fetchArt : String → Option EDDoc)
    (store : List String) : List String :=
  ed_stage2 nfkc fetchArt store
    (scrape_initial_run siteList ed_base_url ed_sections 6 store)

/-! ## El Deber / ANF: the insert transaction (scraper.py lines 221-225,
scraper_anf.py lines 307-312) -/

/-- The body of the `with engine.begin()` block: execute the rows'
inserts in order inside the single open transaction.  `fails r = true`
models a row whose `conn.execute` raises (duplicate keys do NOT fail:
they are the `ON CONFLICT DO NOTHING` no-op branch of `ed_upsert`);
the first failing row aborts the block with the exception. -/
def exec_batch (fails : String → Bool) : List String → List String → Option (List String)
  | st, [] => some st
  | st, r :: rs => if fails r then none else exec_batch fails (ed_upsert st r) rs

/-- Semantics of `with engine.begin() as conn: for row: conn.execute(...)`: one
transaction for the whole batch, committed if every execute succeeds
and rolled back to the initial store if any raises.  The boolean
reports whether the batch committed. -/
def run_batch (store : List String) (rows : List String) (fails : String → Bool) :
    List String × Bool :=
  match exec_batch fails store rows with
  | some st => (st, true)
  | none => (store, false)

/-! ## ANF: listing loop (scraper_anf.py lines 105-171) -/

/-- The hard-coded ANF base URL (scraper_anf.py line 105). -/
def anf_base_url : String := "https://www.noticiasfides.com"

/-- The hard-coded ANF section list (scraper_anf.py lines 106-113). -/
def anf_sections : List String :=
  ["nacional", "nacional/politica", "nacional/sociedad", "nacional/seguridad",
   "economia", "mundo"]

/-- The list `list_urls` (scraper_anf.py lines 115-119): every section crossed
with pages 1..5, section-major. -/
def anf_list_urls : List String :=
  (anf_sections.map fun sec =>
    (List.range 5).map fun i =>
      anf_base_url ++ "/" ++ sec ++ "/?page=" ++ toString (i + 1)).flatten

/-- An `<a href=...>` element of a listing page, as the loop of lines
139-171 sees it: its `href`, its text (`get_text(strip=True)`), and
whether it contains an `<img>`. -/
structure Anchor where
  href : String
  text : String
  hasImg : Bool
deriving DecidableEq

/-- The anchor loop body (scraper_anf.py lines 139-171): keep anchors
whose href starts with `/`, that are not textless image links and have
a nonempty title; build the absolute URL, skip it when already seen in
this run or already stored, otherwise add it to the seen set and to
the collected `(url, title)` list. -/
def anf_process_anchors (existing : List String) :
    List Anchor → List String → List (String × String) →
    List String × List (String × String)
  | [], seen, arts => (seen, arts)
  | a :: rest, seen, arts =>
    if ¬ List.isPrefixOf "/".data a.href.data then anf_process_anchors existing rest seen arts
    else if a.hasImg ∧ a.text = "" then anf_process_anchors existing rest seen arts
    else if a.text = "" then anf_process_anchors existing rest seen arts
    else
      let full := anf_base_url ++ a.href
      if full ∈ seen then anf_process_anchors existing rest seen arts
      else if full ∈ existing then anf_process_anchors existing rest seen arts
      else anf_process_anchors existing rest (seen ++ [full]) (arts ++ [(full, a.text)])

/-- The listing loop (scraper_anf.py lines 128-171): request every URL
of `urls` in order (a fetch failure prints and `continue`s — it does
NOT stop the section), feeding each fetched page's anchors through
`anf_process_anchors`.  Besides the collected `(url, title)` candidates
it returns the list of listing URLs requested, in order. -/
def anf_run (site : String → Option (List Anchor)) (existing : List String) :
    List String → List String → List (String × String) → List String →
    List (String × String) × List String
  | [], _, arts, req => (arts, req)
  | url :: rest, seen, arts, req =>
    match site url with
    | none => anf_run site existing rest seen arts (req ++ [url])
    | some anchors =>
      let pr := anf_process_anchors existing anchors seen arts
      anf_run site existing rest pr.1 pr.2 (req ++ [url])

/-! ## ANF: article extraction (scraper_anf.py lines 40-100) -/

/-- A `<p>` of the ANF content container: its text and, if present, the
text of a `<strong>` child.  (The `get_text(" ", strip=True)` /
`get_text(strip=True)` variants of lines 69, 86 and 90 are both
modelled by `text`.) -/
structure AnfPara where
  text : String
  strong : Option String
deriving DecidableEq

/-- The selector results on an ANF article page: `h1.qtitle`,
`div.qlead`, `div.qdate`, and the paragraphs of
`div.qtexto.pt-3.anf-arti-content` (`none` when the container is
absent). -/
structure AnfDoc where
  qtitle : Option String
  qlead : Option String
  qdate : Option String
  contentDiv : Option (List AnfPara)
deriving DecidableEq

/-- The record built by `extract_article` (scraper_anf.py lines
92-100). -/
structure AnfRecord where
  headline : Option String
  date_extracted : Option String
  subheadline : Option String
  author : String
  content : String
  url : String
  date_agency : Option String
deriving DecidableEq

/-- Python `s.strip("/ ")`: drop `/` and space from both ends. -/
def stripSlashSpace (s : String) : String :=
  let inSet : Char → Bool := fun c => c = '/' ∨ c = ' '
  ⟨((s.data.dropWhile inSet).reverse.dropWhile inSet).reverse⟩

/-- The function `extract_article` (scraper_anf.py lines 40-100).  A fetch failure
returns `None` (lines 41-46); a missing content container returns
`None` (lines 63-65); cleaned paragraphs joined with `" "` form the
content, and an empty content returns `None` (lines 67-75); the
city/agency prefix comes from the first paragraph (preferring its
`<strong>` child, lines 77-86) and the author code from the last
paragraph stripped of `"/ "` (lines 88-90). -/
def anf_extract_article (nfkc : String → String)
    (fetch : String → Option AnfDoc) (url : String) : Option AnfRecord :=
  match fetch url with
  | none => none
  | some d =>
    let title := d.qtitle.map (clean_text nfkc)
    let subheader := d.qlead.map (clean_text nfkc)
    let date_text := d.qdate.map (clean_text nfkc)
    match d.contentDiv with
    | none => none
    | some paras =>
      let cleaned := paras.map fun p => clean_text nfkc p.text
      let content := joinWith " " (cleaned.filter fun s => s ≠ "")
      if content = "" then none
      else
        let prefx : Option String :=
          match paras.head? with
          | none => none
          | some p =>
            match p.strong with
            | some st => some (clean_text nfkc st)
            | none => some (clean_text nfkc p.text)
        let author :=
          match paras.getLast? with
          | none => ""  -- unreachable: a nonempty content forces a paragraph
          | some p => clean_text nfkc (stripSlashSpace p.text)
        some ⟨title, date_text, subheader, author, content, url, prefx⟩

/-! ## ANF: agency normalization (scraper_anf.py lines 260-286) -/

/-- Python `re.sub(r"[–—−]", "-", x)`: normalize en dash, em dash and minus
sign to a hyphen (scraper_anf.py line 265). -/
def subDashes (s : String) : String :=
  ⟨s.data.map fun c =>
    if c = '–' ∨ c = '—' ∨ c = '−' then '-' else c⟩

/-- The accented letters kept by the agency filter. -/
def spanishLetters : List Char :=
  ['Á', 'É', 'Í', 'Ó', 'Ú', 'Ü', 'Ñ', 'á', 'é', 'í', 'ó', 'ú', 'ü', 'ñ']

/-- Membership in the character class `[A-Za-zÁÉÍÓÚÜÑáéíóúüñ ]`. -/
def keepAgencyChar (c : Char) : Bool :=
  ('A' ≤ c ∧ c ≤ 'Z') ∨ ('a' ≤ c ∧ c ≤ 'z') ∨ c = ' ' ∨ c ∈ spanishLetters

/-- Python `re.sub(r"[^A-Za-zÁÉÍÓÚÜÑáéíóúüñ ]", "", x)` (line 268). -/
def keepLetters (s : String) : String := ⟨s.data.filter keepAgencyChar⟩

/-- Python `str.upper()` on the alphabet that survives `keepLetters`. -/
def upperChar (c : Char) : Char :=
  if 'a' ≤ c ∧ c ≤ 'z' then c.toUpper
  else if c = 'á' then 'Á' else if c = 'é' then 'É' else if c = 'í' then 'Í'
  else if c = 'ó' then 'Ó' else if c = 'ú' then 'Ú' else if c = 'ü' then 'Ü'
  else if c = 'ñ' then 'Ñ' else c

/-- Python `x.upper()` (line 274). -/
def upperStr (s : String) : String := ⟨s.data.map upperChar⟩

/-- Python `x_up.replace(" ", "")` (line 279). -/
def removeSpaces (s : String) : String := ⟨s.data.filter fun c => c ≠ ' '⟩

/-- The body of `clean_agency` on a string (scraper_anf.py lines
263-284): dash normalization, letter filter, whitespace collapse and
strip, then the canonical mappings on the uppercased form. -/
def clean_agency_str (x : String) : Option String :=
  let x1 := subDashes x
  let x2 := keepLetters x1
  let x3 := stripWsStr (collapseWsStr x2)
  let xup := upperStr x3
  if List.isPrefixOf "ANF".data xup.data then some "ANF"
  else if removeSpaces xup = "EUROPAPRESS" then some "EUROPA PRESS"
  else if xup = "" then none
  else some x3

/-- The function `clean_agency` (scraper_anf.py lines 260-284): non-string input
yields `None` (lines 262-263). -/
def clean_agency : PyVal → Option String
  | .pyStr x => clean_agency_str x
  | _ => none

/-- The function `clean_agency` in the exception monad.  Its body contains no
fallible operation (`re.sub`, `str.upper`, `str.replace`,
`str.startswith` and comparisons are all total), so the translation is
pure; settling claim C6 amounts to this never being `Except.error`. -/
def clean_agency_exc (v : PyVal) : Except PyExn (Option String) :=
  .ok (clean_agency v)

/-! ## ANF: section from URL (scraper_anf.py lines 291-297) -/

/-- The function `extract_section` (scraper_anf.py lines 291-297): split the URL on
`/`; fewer than five parts yields `None`, otherwise the parts between
the host and the final slug, rejoined with `/`. -/
def anf_extract_section (url : String) : Option String :=
  let parts := splitOnChar '/' url
  if parts.length < 5 then none
  else some (joinWith "/" ((parts.drop 3).dropLast))

/-! ## Shape predicates for cleaned text (used to state claim C10) -/

/-- No two adjacent characters of `l` are both whitespace. -/
def okAdj : List Char → Bool
  | [] => true
  | [_] => true
  | a :: b :: t => (!(isPyWs a && isPyWs b)) && okAdj (b :: t)

/-- The first character of `l`, if any, is not whitespace. -/
def headNotWs (l : List Char) : Bool :=
  match l.head? with
  | none => true
  | some c => !isPyWs c

/-- Every whitespace character of `l` is the ASCII space. -/
def allWsSp (l : List Char) : Bool :=
  l.all fun c => !isPyWs c || c = ' '

/-! ## Concrete fixtures for witnesses and counterexamples -/

/-- An article page on which every selector of scraper.py matches
nothing. -/
def edEmptyDoc : EDDoc := ⟨none, none, none, none, none⟩

/-- An ANF article page with a headline but no content container. -/
def anfTitleOnlyDoc : AnfDoc := ⟨some "Headline only", none, none, none⟩

/-- The spec's form of the boilerplate marker (properly encoded
`á` = U+00E1). -/
def ed_claim_marker : String := "Más noticias"

/-- The spec's content-split example, with the properly encoded
marker. -/
def ed_example_claim : String := "Body text here. Más noticias Unrelated link list"

/-- The content-split example rewritten with the marker exactly as the
source spells it. -/
def ed_example_source : String := "Body text here. MÃ¡s noticias Unrelated link list"

/-- A content string containing the source marker twice, to exhibit the
split at the last occurrence. -/
def ed_example_twice : String := "A MÃ¡s noticias B MÃ¡s noticias C"

/-- A listing site whose every page carries one article already known
to the store fixture `c1_store`. -/
def c1_site : String → Option (List Cand) := fun _ => some [⟨"t", "u1"⟩]

/-- Article fetches for the C1 witness (never reached). -/
def c1_fetch : String → Option EDDoc := fun _ => some edEmptyDoc

/-- The store fixture for the C1 witness. -/
def c1_store : List String := ["u1"]

/-- A listing site for the C2 witness: the unnumbered page of section
`s` has one new article, every later page is empty. -/
def c2_site : String → Option (List Cand) :=
  fun u => if u = "b/s" then some [⟨"t", "new1"⟩] else some []

/-- An ANF listing site whose every page links the same single
article. -/
def anf_site0 : String → Option (List Anchor) :=
  fun _ => some [⟨"/economia/a1", "T", false⟩]

/-- A store that already contains the only article `anf_site0` ever
lists. -/
def anf_existing0 : List String := ["https://www.noticiasfides.com/economia/a1"]

/-! ## Claim C5: date parsing -/

/-- Claim C5: date parsing splits off the weekday prefix at the first
comma, tokenizes the remainder into day / month-name / year / time,
maps the month name through the Spanish month table, and constructs
the timestamp; the input `"jueves, 12 de junio de 2025 14:30"` parses
to the timestamp 2025-06-12T14:30. -/
theorem c5_date_parsing :
    splitFirstOn ',' "jueves, 12 de junio de 2025 14:30" =
      ("jueves", some " 12 de junio de 2025 14:30")
    ∧ ed_weekday "jueves, 12 de junio de 2025 14:30" = "jueves"
    ∧ pySplitWsStr "12 de junio de 2025 14:30" =
        ["12", "de", "junio", "de", "2025", "14:30"]
    ∧ List.lookup "junio" meses_table = some "06"
    ∧ parse_fecha (.pyStr "12 de junio de 2025 14:30") = some ⟨2025, 6, 12, 14, 30⟩
    ∧ ed_published "jueves, 12 de junio de 2025 14:30" = some ⟨2025, 6, 12, 14, 30⟩ := by
  decide

/-! ## Claim C8: section derivation -/

/-- Claim C8, counterexample: in scraper_anf.py's `extract_section`, a
URL with an empty path yields `None`, not the sentinel `"unknown"`
(scraper.py's variant is the one that yields `"unknown"`). -/
theorem c8_empty_path_counterexample :
    anf_extract_section "https://www.noticiasfides.com/" = none
    ∧ stripSlashes (edUrlPath "https://www.noticiasfides.com/") = ""
    ∧ (none : Option String) ≠ some "unknown" := by
  decide

/-- Claim C8, amended: scraper.py's `extract_section` maps a URL to its
first path segment and an empty path to `"unknown"`;
scraper_anf.py's `extract_section` maps a URL to the slice of path
segments between host and slug (e.g. `"nacional/politica"`), but yields
`None` — not `"unknown"` — for URLs with fewer than five
`/`-separated parts, which includes every URL with an empty path. -/
theorem c8_section_derivation :
    ed_extract_section "https://example.com/economia/some-slug" = "economia"
    ∧ ed_extract_section "https://example.com" = "unknown"
    ∧ ed_extract_section "https://example.com/" = "unknown"
    ∧ anf_extract_section "https://example.com/economia/some-slug" = some "economia"
    ∧ anf_extract_section "https://www.noticiasfides.com/nacional/politica/some-slug" =
        some "nacional/politica"
    ∧ anf_extract_section "https://www.noticiasfides.com/" = none
    ∧ anf_extract_section "https://www.noticiasfides.com" = none := by
  decide

/-! ## Claim C7: content split -/

/-- Claim C7, counterexample: the marker named by the claim,
`"Más noticias"` (with the proper `á`), occurs in this content string,
yet the code does not split there: scraper.py line 202 spells the
marker with the mojibake sequence `Ã¡`, so `suggested_news` comes out
empty and `proper_content` keeps the whole string. -/
theorem c7_marker_counterexample :
    occIndices ed_claim_marker.data ed_example_claim.data ≠ []
    ∧ ed_suggested_news ed_example_claim = ""
    ∧ ed_suggested_news ed_example_claim ≠ "Unrelated link list"
    ∧ ed_proper_content ed_example_claim = ed_example_claim := by
  decide

/-- Claim C7, amended: the marker the code splits on is the literal
`"MÃ¡s noticias"` of scraper.py line 202 (the mojibake rendering of
`Más noticias`).  When that marker is absent the suggested part is
`""` and the proper part is the stripped full content (equal to the
full content for `clean_text`-normalized input); when present, the
split is at the last occurrence, both halves stripped. -/
theorem c7_content_split (content : String) :
    (occIndices ed_marker.data content.data = [] →
      ed_suggested_news content = "" ∧ ed_proper_content content = stripWsStr content)
    ∧ ed_proper_content ed_example_source = "Body text here."
    ∧ ed_suggested_news ed_example_source = "Unrelated link list"
    ∧ ed_proper_content ed_example_twice = "A MÃ¡s noticias B"
    ∧ ed_suggested_news ed_example_twice = "C" := by
  refine ⟨?_, by decide, by decide, by decide, by decide⟩
  intro h
  simp [ed_suggested_news, ed_proper_content, rsplitLast, h, stripWsStr, stripWsL]

/-- Witness for claim C7's amended theorem at a marker-free content
string. -/
theorem c7_content_split_witness :
    ed_suggested_news "plain body" = ""
    ∧ ed_proper_content "plain body" = stripWsStr "plain body" :=
  (c7_content_split "plain body").1 (by decide)

/-! ## Claim C4: partial-field tolerance -/

/-- Claim C4, counterexample: in scraper_anf.py, extraction can fail
the whole record: a successfully fetched article page whose content
container matches nothing makes `extract_article` return `None`, so no
record (not even a url-only one) is forwarded. -/
theorem c4_anf_drop_counterexample :
    anf_extract_article (fun s => s) (fun _ => some anfTitleOnlyDoc)
      "https://www.noticiasfides.com/economia/x" = none
    ∧ anfTitleOnlyDoc.qtitle = some "Headline only" := by
  decide

/-- Claim C4, amended: in scraper.py, field extraction never fails the
whole record — every unmatched selector leaves its field empty, a
record carrying only its url is still produced, normalizes to a null
published timestamp and a section derived from the url, and is still
upserted (the title filter of line 193 runs on listing titles, before
extraction).  In scraper_anf.py, by contrast, a missing or empty
content container drops the whole record (see the counterexample). -/
theorem c4_partial_field_tolerance (nfkc : String → String) (url : String) :
    extract_full_article nfkc (fun _ => some edEmptyDoc) url = ⟨"", "", "", "", "", url⟩
    ∧ ed_normalize (extract_full_article nfkc (fun _ => some edEmptyDoc) url) =
        ⟨"", "", "", none, ed_extract_section url, url⟩
    ∧ ed_stage2 nfkc (fun _ => some edEmptyDoc) [] [⟨"T", url⟩] = [url] := by
  refine ⟨rfl, rfl, ?_⟩
  simp [ed_stage2, dedupByLink, dedupGo, ed_upsert, extract_full_article]

/-! ## Claim C6: totality of the normalization helpers -/

/-- Claim C6: the date and agency normalization functions are total
over arbitrary (also non-string) input: translated into the
exception monad, `parse_fecha` (whose `try` body can raise, see
`parse_fecha_body`) and `clean_agency` always return `Except.ok` of a
possibly-null value — never an uncaught exception. -/
theorem c6_normalization_total (v : PyVal) :
    parse_fecha_exc v = .ok (parse_fecha v)
    ∧ clean_agency_exc v = .ok (clean_agency v)
    ∧ (∃ r, parse_fecha_exc v = .ok r)
    ∧ (∃ r, clean_agency_exc v = .ok r) := by
  have h1 : parse_fecha_exc v = .ok (parse_fecha v) := by
    cases v with
    | pyStr s =>
      simp only [parse_fecha_exc, parse_fecha]
      split
      · rfl
      · cases parse_fecha_body s <;> rfl
    | pyNone => rfl
    | nan => rfl
  exact ⟨h1, rfl, ⟨_, h1⟩, ⟨_, rfl⟩⟩

/-! ## Claim C3: batch atomicity -/

/-- Helper: a batch containing a failing row never commits — the open
transaction's execute raises. -/
theorem exec_batch_none (fails : String → Bool) :
    ∀ (rows : List String) (st : List String),
      (∃ r ∈ rows, fails r = true) → exec_batch fails st rows = none := by
  intro rows
  induction rows with
  | nil => rintro st ⟨r, hr, -⟩; exact absurd hr (List.not_mem_nil r)
  | cons a rs ih =>
    rintro st ⟨r, hr, hf⟩
    by_cases ha : fails a = true
    · simp [exec_batch, ha]
    · have hrs : r ∈ rs := by
        rcases List.mem_cons.mp hr with h | h
        · exact absurd (h ▸ hf) ha
        · exact h
      simp [exec_batch, ha, ih _ ⟨r, hrs, hf⟩]

/-- Helper: a committing batch only appends — it keeps everything that
was in the store when the transaction opened. -/
theorem exec_batch_keeps (fails : String → Bool) :
    ∀ (rows st st' : List String), exec_batch fails st rows = some st' →
      ∀ u ∈ st, u ∈ st' := by
  intro rows
  induction rows with
  | nil => intro st st' h u hu; simp only [exec_batch, Option.some.injEq] at h; exact h ▸ hu
  | cons a rs ih =>
    intro st st' h u hu
    by_cases ha : fails a = true
    · simp [exec_batch, ha] at h
    · simp only [exec_batch, ha, if_false, Bool.false_eq_true] at h
      refine ih _ _ h u ?_
      unfold ed_upsert
      split
      · exact hu
      · exact List.mem_append_left _ hu

/-- Claim C3, counterexample: the batch is one transaction, not one
atomic unit per record.  With an empty store and the two-row batch
`["u1", "u2"]` where only the second row's insert fails, the whole
batch rolls back: `"u1"` is not committed, contradicting 'records
1..k-1 of that batch remain committed'. -/
theorem c3_rollback_counterexample :
    run_batch [] ["u1", "u2"] (fun r => r == "u2") = ([], false)
    ∧ (fun r : String => r == "u2") "u1" = false
    ∧ (fun r : String => r == "u2") "u2" = true
    ∧ "u1" ∉ (run_batch [] ["u1", "u2"] (fun r => r == "u2")).1 := by
  decide

/-- Claim C3, amended: both scripts execute the whole batch inside one
`engine.begin()` transaction.  If any row's insert fails, the entire
batch — including the rows before the failing one — is rolled back and
the store is left exactly as at batch start; records committed by
earlier runs are preserved in every case. -/
theorem c3_single_transaction (store rows : List String) (fails : String → Bool) :
    ((∃ r ∈ rows, fails r = true) → run_batch store rows fails = (store, false))
    ∧ (∀ u ∈ store, u ∈ (run_batch store rows fails).1) := by
  constructor
  · intro hex
    unfold run_batch
    rw [exec_batch_none fails rows store hex]
  · intro u hu
    unfold run_batch
    cases h : exec_batch fails store rows with
    | none => exact hu
    | some st' => exact exec_batch_keeps fails rows store st' h u hu

/-- Witness for claim C3's amended theorem: the concrete two-row batch
with a failing second row rolls back to the empty store. -/
theorem c3_single_transaction_witness :
    run_batch [] ["u1", "u2"] (fun r => r == "u2") = ([], false) :=
  (c3_single_transaction [] ["u1", "u2"] (fun r => r == "u2")).1
    ⟨"u2", by decide, by decide⟩

/-! ## Claim C2: pagination and early stop -/

/-- Helper: the ANF listing loop requests every URL of its input list,
in order, whatever the existing set and the fetch outcomes are. -/
theorem anf_run_requests_all (site : String → Option (List Anchor))
    (existing : List String) :
    ∀ (urls seen : List String) (arts : List (String × String)) (req : List String),
      (anf_run site existing urls seen arts req).2 = req ++ urls := by
  intro urls
  induction urls with
  | nil => intro seen arts req; simp [anf_run]
  | cons u rest ih =>
    intro seen arts req
    unfold anf_run
    cases site u with
    | none => rw [ih]; simp
    | some anchors => dsimp only; rw [ih]; simp

/-- Helper: the per-section loop of `scrape_initial_run`, started at
page `p` with `r` pages of budget, visits exactly pages `p .. p+j` when
pages `p .. p+j-1` yield something new and page `p+j` does not. -/
theorem ed_section_visits (site : String → Option (List Cand))
    (existing : List String) (base sec : String) :
    ∀ (j r p : Nat), j < r →
      (∀ i, i < j →
        (scrape_section_page existing (site (ed_page_url base sec (p + i)))).2 = true) →
      (scrape_section_page existing (site (ed_page_url base sec (p + j)))).2 = false →
      (scrape_section_pages site existing base sec p r).2 =
        (List.range (j + 1)).map fun i => ed_page_url base sec (p + i) := by
  intro j
  induction j with
  | zero =>
    intro r p hr hall hlast
    match r, hr with
    | r' + 1, _ =>
      rw [Nat.add_zero] at hlast
      simp [scrape_section_pages, hlast, List.range_succ]
  | succ j ih =>
    intro r p hr hall hlast
    match r, hr with
    | r' + 1, _ =>
      have h0 : (scrape_section_page existing (site (ed_page_url base sec p))).2 = true := by
        have := hall 0 (Nat.succ_pos j)
        rwa [Nat.add_zero] at this
      have hrec := ih r' (p + 1) (by omega)
        (fun i hi => by
          have := hall (i + 1) (by omega)
          rwa [show p + (i + 1) = p + 1 + i by omega] at this)
        (by rwa [show p + (j + 1) = p + 1 + j by omega] at hlast)
      unfold scrape_section_pages
      simp only [h0, if_true]
      rw [hrec]
      conv_rhs => rw [List.range_succ_eq_map]
      simp only [List.map_cons, List.map_map, Nat.add_zero]
      congr 1
      apply List.map_congr_left
      intro i _
      simp only [Function.comp_apply]
      congr 1
      omega

set_option maxRecDepth 8000 in
/-- Claim C2, counterexample: in scraper_anf.py there is no early stop.
With a site whose every listing page carries a single candidate that is
already in the existing set (so every page from page 1 on yields zero
new candidates — the claim's premise with k = 1), the loop still
requests all 30 configured listing pages (5 per section), not just the
first page of each of the 6 sections. -/
theorem c2_anf_counterexample :
    (anf_run anf_site0 anf_existing0 anf_list_urls [] [] []).2 = anf_list_urls
    ∧ (∀ url ∈ anf_list_urls, ∀ a ∈ (anf_site0 url).getD [],
        anf_base_url ++ a.href ∈ anf_existing0)
    ∧ anf_list_urls.length = 30
    ∧ (anf_run anf_site0 anf_existing0 anf_list_urls [] [] []).1 = []
    ∧ (30 : Nat) ≠ 6 := by
  decide

/-- Claim C2, amended: in scraper.py's `scrape_initial_run`, each
section's listing pages are visited in increasing page order and the
section stops as soon as one page yields zero new candidates (a page
that fails to fetch yields zero): when pages before the k-th yield new
candidates and the k-th does not, exactly the first k pages are
visited.  scraper_anf.py, by contrast, requests every configured
listing page of every section unconditionally: a page whose candidates
are all known (or whose fetch fails) does not stop its section. -/
theorem c2_early_stop (site : String → Option (List Cand)) (existing : List String)
    (base sec : String) (num_pages k : Nat) (hk0 : 0 < k) (hk : k ≤ num_pages)
    (hbefore : ∀ i ∈ List.range (k - 1),
      (scrape_section_page existing (site (ed_page_url base sec i))).2 = true)
    (hstop : (scrape_section_page existing (site (ed_page_url base sec (k - 1)))).2 = false) :
    (scrape_section_pages site existing base sec 0 num_pages).2 =
      (List.range k).map (ed_page_url base sec)
    ∧ ∀ (asite : String → Option (List Anchor)) (aexisting urls seen : List String)
        (arts : List (String × String)) (req : List String),
        (anf_run asite aexisting urls seen arts req).2 = req ++ urls := by
  constructor
  · have h := ed_section_visits site existing base sec (k - 1) num_pages 0
      (by omega)
      (fun i hi => by
        have := hbefore i (List.mem_range.mpr hi)
        rwa [Nat.zero_add])
      (by rwa [Nat.zero_add])
    rw [h, show k - 1 + 1 = k by omega]
    apply List.map_congr_left
    intro i _
    rw [Nat.zero_add]
  · exact fun asite aexisting => anf_run_requests_all asite aexisting

/-- Witness for claim C2's amended theorem: on the fixture site whose
section `s` has one new article on its unnumbered page and nothing on
page 1, exactly the first two listing URLs are visited. -/
theorem c2_early_stop_witness :
    (scrape_section_pages c2_site [] "b/" "s" 0 6).2 =
      (List.range 2).map (ed_page_url "b/" "s") :=
  (c2_early_stop c2_site [] "b/" "s" 6 2 (by decide) (by decide)
    (by decide) (by decide)).1

/-! ## Claim C9: in-run deduplication -/

/-- Helper: `drop_duplicates` produces pairwise distinct links, none of
which is in the already-seen accumulator. -/
theorem dedupGo_nodup : ∀ (cs : List Cand) (seen : List String),
    ((dedupGo seen cs).map fun c => c.link).Nodup
    ∧ ∀ c ∈ dedupGo seen cs, c.link ∉ seen := by
  intro cs
  induction cs with
  | nil => intro seen; exact ⟨List.nodup_nil, by simp [dedupGo]⟩
  | cons c cs ih =>
    intro seen
    by_cases h : c.link ∈ seen
    · constructor
      · simp only [dedupGo, if_pos h]
        exact (ih seen).1
      · intro d hd
        simp only [dedupGo, if_pos h] at hd
        exact (ih seen).2 d hd
    · constructor
      · simp only [dedupGo, if_neg h, List.map_cons, List.nodup_cons]
        refine ⟨?_, (ih (c.link :: seen)).1⟩
        intro hmem
        rcases List.mem_map.mp hmem with ⟨d, hd, hlink⟩
        exact (ih (c.link :: seen)).2 d hd (hlink ▸ List.mem_cons_self _ _)
      · intro d hd
        simp only [dedupGo, if_neg h] at hd
        rcases List.mem_cons.mp hd with rfl | hd'
        · exact h
        · intro hds
          exact (ih (c.link :: seen)).2 d hd' (List.mem_cons_of_mem _ hds)

/-- Helper: the ANF anchor loop keeps the collected URLs pairwise
distinct and inside the seen set. -/
theorem anf_process_inv (existing : List String) :
    ∀ (anchors : List Anchor) (seen : List String) (arts : List (String × String)),
      (arts.map Prod.fst).Nodup → (∀ p ∈ arts, p.1 ∈ seen) →
      (((anf_process_anchors existing anchors seen arts).2.map Prod.fst).Nodup
        ∧ ∀ p ∈ (anf_process_anchors existing anchors seen arts).2,
            p.1 ∈ (anf_process_anchors existing anchors seen arts).1) := by
  intro anchors
  induction anchors with
  | nil => intro seen arts h1 h2; exact ⟨h1, h2⟩
  | cons a rest ih =>
    intro seen arts h1 h2
    unfold anf_process_anchors
    dsimp only
    split
    · exact ih seen arts h1 h2
    · split
      · exact ih seen arts h1 h2
      · split
        · exact ih seen arts h1 h2
        · split
          · exact ih seen arts h1 h2
          · split
            · exact ih seen arts h1 h2
            · rename_i hseen hexist
              refine ih (seen ++ [anf_base_url ++ a.href])
                (arts ++ [(anf_base_url ++ a.href, a.text)]) ?_ ?_
              · rw [List.map_append, List.nodup_append]
                refine ⟨h1, by simp, ?_⟩
                intro u hu
                simp only [List.map_cons, List.map_nil, List.mem_cons,
                  List.not_mem_nil, or_false]
                rcases List.mem_map.mp hu with ⟨p, hp, rfl⟩
                intro heq
                exact hseen (heq ▸ h2 p hp)
              · intro p hp
                rcases List.mem_append.mp hp with hp' | hp'
                · exact List.mem_append_left _ (h2 p hp')
                · simp only [List.mem_singleton] at hp'
                  subst hp'
                  exact List.mem_append_right _ (by simp)

/-- Helper: across listing pages, the ANF run preserves the
invariant and ends with pairwise distinct collected URLs. -/
theorem anf_run_nodup (site : String → Option (List Anchor)) (existing : List String) :
    ∀ (urls seen : List String) (arts : List (String × String)) (req : List String),
      (arts.map Prod.fst).Nodup → (∀ p ∈ arts, p.1 ∈ seen) →
      (((anf_run site existing urls seen arts req).1).map Prod.fst).Nodup := by
  intro urls
  induction urls with
  | nil => intro seen arts req h1 _; exact h1
  | cons u rest ih =>
    intro seen arts req h1 h2
    unfold anf_run
    cases site u with
    | none => exact ih seen arts _ h1 h2
    | some anchors =>
      have hinv := anf_process_inv existing anchors seen arts h1 h2
      exact ih _ _ _ hinv.1 hinv.2

/-- Claim C9: within a single run each pipeline forwards a given
canonical URL to extraction/upsert at most once — scraper.py's
`drop_duplicates(subset=["link"])` leaves pairwise distinct links, and
scraper_anf.py's `seen_urls` set keeps the collected `(url, title)`
candidates pairwise distinct in `url`, across all listing pages. -/
theorem c9_no_duplicate_forwarding :
    (∀ cands : List Cand, ((dedupByLink cands).map fun c => c.link).Nodup)
    ∧ ∀ (site : String → Option (List Anchor)) (existing urls : List String),
        (((anf_run site existing urls [] [] []).1).map Prod.fst).Nodup := by
  constructor
  · intro cands
    exact (dedupGo_nodup cands []).1
  · intro site existing urls
    exact anf_run_nodup site existing urls [] [] []
      List.nodup_nil (by simp)

/-! ## Claim C1: idempotence of a second run -/

/-- Helper: when every valid listing entry's link is already stored,
`scrape_section_page`'s entry loop collects nothing and reports
nothing new. -/
theorem scrape_entries_all_known (store : List String) :
    ∀ es : List Cand, (∀ e ∈ es, e.title ≠ "" → e.link ≠ "" → e.link ∈ store) →
      scrape_entries store es = ([], false) := by
  intro es
  induction es with
  | nil => intro _; rfl
  | cons e rest ih =>
    intro h
    have hrest := ih fun d hd => h d (List.mem_cons_of_mem _ hd)
    unfold scrape_entries
    rw [hrest]
    by_cases ht : e.title = ""
    · simp [ht]
    · by_cases hl : e.link = ""
      · simp [hl]
      · have hmem : e.link ∈ store := h e (List.mem_cons_self _ _) ht hl
        have hne : store ≠ [] := by
          intro hnil
          rw [hnil] at hmem
          exact List.not_mem_nil _ hmem
        simp [ht, hl, hne, hmem]

/-- Helper: no candidate emitted by the entry loop has a link in the
existing set. -/
theorem scrape_entries_filtered (ex : List String) :
    ∀ (es : List Cand), ∀ c ∈ (scrape_entries ex es).1, c.link ∉ ex := by
  intro es
  induction es with
  | nil => intro c hc; exact absurd hc (List.not_mem_nil c)
  | cons e rest ih =>
    intro c hc
    unfold scrape_entries at hc
    dsimp only at hc
    by_cases ht : e.title = "" ∨ e.link = ""
    · rw [if_pos ht] at hc
      exact ih c hc
    · rw [if_neg ht] at hc
      by_cases hex : ex ≠ [] ∧ e.link ∈ ex
      · rw [if_pos hex] at hc
        exact ih c hc
      · rw [if_neg hex] at hc
        rcases List.mem_cons.mp hc with rfl | hc'
        · intro hmem
          exact hex ⟨by rintro rfl; exact List.not_mem_nil _ hmem, hmem⟩
        · exact ih c hc'

/-- Helper: with every valid candidate already stored, every section's
page loop collects nothing. -/
theorem scrape_section_pages_all_known (site : String → Option (List Cand))
    (store : List String) (base sec : String)
    (H : ∀ url, ∀ e ∈ (site url).getD [], e.title ≠ "" → e.link ≠ "" → e.link ∈ store) :
    ∀ (r p : Nat), (scrape_section_pages site store base sec p r).1 = [] := by
  intro r
  induction r with
  | zero => intro p; rfl
  | succ r' ih =>
    intro p
    have hpage : scrape_section_page store (site (ed_page_url base sec p)) = ([], false) := by
      unfold scrape_section_page
      cases hs : site (ed_page_url base sec p) with
      | none => rfl
      | some es =>
        apply scrape_entries_all_known
        intro e he
        have := H (ed_page_url base sec p) e
        rw [hs] at this
        exact this he
    unfold scrape_section_pages
    dsimp only
    rw [hpage]
    simp [ih]

/-- Helper: no candidate any section's page loop collects has a link
in the existing set. -/
theorem scrape_section_pages_filtered (site : String → Option (List Cand))
    (ex : List String) (base sec : String) :
    ∀ (r p : Nat), ∀ c ∈ (scrape_section_pages site ex base sec p r).1, c.link ∉ ex := by
  intro r
  induction r with
  | zero => intro p c hc; exact absurd hc (List.not_mem_nil c)
  | succ r' ih =>
    intro p c hc
    unfold scrape_section_pages at hc
    dsimp only at hc
    have hpage : ∀ d ∈ (scrape_section_page ex (site (ed_page_url base sec p))).1,
        d.link ∉ ex := by
      intro d hd
      unfold scrape_section_page at hd
      cases hs : site (ed_page_url base sec p) with
      | none => rw [hs] at hd; exact absurd hd (List.not_mem_nil d)
      | some es => rw [hs] at hd; exact scrape_entries_filtered ex es d hd
    by_cases hf : (scrape_section_page ex (site (ed_page_url base sec p))).2 = true
    · rw [if_pos hf] at hc
      rcases List.mem_append.mp hc with hc' | hc'
      · exact hpage c hc'
      · exact ih (p + 1) c hc'
    · rw [if_neg hf] at hc
      exact hpage c hc

/-- Claim C1: a second run against an unchanged source inserts nothing.
When every valid candidate URL the listing site offers is already in
the store at run start, the full scraper.py pipeline returns the store
unchanged; moreover, for any site, every candidate the crawl emits has
a link outside the existing set (stored candidates are filtered before
extraction), and an upsert of an already-stored URL is a no-op, never
an error. -/
theorem c1_second_run_idempotent (nfkc : String → String)
    (site : String → Option (List Cand)) (fetchArt : String → Option EDDoc)
    (store : List String)
    (H : ∀ url, ∀ e ∈ (site url).getD [], e.title ≠ "" → e.link ≠ "" → e.link ∈ store) :
    ed_full_pipeline nfkc site fetchArt store = store
    ∧ (∀ (site2 : String → Option (List Cand)) (c : Cand),
        c ∈ scrape_initial_run site2 ed_base_url ed_sections 6 store → c.link ∉ store)
    ∧ (∀ u ∈ store, ed_upsert store u = store) := by
  refine ⟨?_, ?_, ?_⟩
  · have hsec : ∀ sec, (scrape_section_pages site store ed_base_url sec 0 6).1 = [] :=
      fun sec => scrape_section_pages_all_known site store ed_base_url sec H 6 0
    unfold ed_full_pipeline scrape_initial_run
    simp [hsec, ed_sections, ed_stage2, dedupByLink, dedupGo]
  · intro site2 c hc
    unfold scrape_initial_run at hc
    rcases List.mem_flatten.mp hc with ⟨l, hl, hcl⟩
    rcases List.mem_map.mp hl with ⟨sec, -, rfl⟩
    exact scrape_section_pages_filtered site2 store ed_base_url sec 6 0 c hcl
  · intro u hu
    simp [ed_upsert, hu]

/-- Witness for claim C1: on a site whose only candidate is already the
only stored URL, the full pipeline leaves the store `["u1"]`
unchanged. -/
theorem c1_second_run_idempotent_witness :
    ed_full_pipeline (fun s => s) c1_site c1_fetch c1_store = c1_store :=
  (c1_second_run_idempotent (fun s => s) c1_site c1_fetch c1_store
    (by
      intro url e he _ _
      simp only [c1_site, Option.getD_some, List.mem_singleton] at he
      subst he
      simp [c1_store])).1

/-! ## Claim C10: shape and idempotence of `clean_text` -/

/-- Helper: adjacency-freedom passes to the tail. -/
theorem okAdj_tail (a : Char) (l : List Char) (h : okAdj (a :: l) = true) :
    okAdj l = true := by
  cases l with
  | nil => rfl
  | cons b t =>
    simp only [okAdj, Bool.and_eq_true] at h
    exact h.2

/-- Helper: extending on the left keeps adjacency-freedom when the new
head is not whitespace or the old head is not whitespace. -/
theorem okAdj_cons (a : Char) (l : List Char) (h : okAdj l = true)
    (hh : isPyWs a = false ∨ headNotWs l = true) : okAdj (a :: l) = true := by
  cases l with
  | nil => rfl
  | cons b t =>
    have hb : (!(isPyWs a && isPyWs b)) = true := by
      rcases hh with ha | hb
      · simp [ha]
      · simp only [headNotWs, List.head?_cons] at hb
        have hb' : isPyWs b = false := by
          revert hb
          cases isPyWs b <;> simp
        simp [hb']
    simp only [okAdj, Bool.and_eq_true]
    exact ⟨hb, h⟩

/-- Helper: the collapse loop with a pending whitespace flag never
emits a leading whitespace character. -/
theorem headNotWs_collapseGo_true :
    ∀ l : List Char, headNotWs (collapseGo true l) = true := by
  intro l
  induction l with
  | nil => rfl
  | cons c cs ih =>
    by_cases hws : isPyWs c = true
    · simpa [collapseGo, hws] using ih
    · simp [collapseGo, hws, headNotWs]

/-- Helper: the collapse loop never emits two adjacent whitespace
characters. -/
theorem okAdj_collapseGo : ∀ (l : List Char) (b : Bool), okAdj (collapseGo b l) = true := by
  intro l
  induction l with
  | nil => intro b; rfl
  | cons c cs ih =>
    intro b
    by_cases hws : isPyWs c = true
    · cases b with
      | true => simpa [collapseGo, hws] using ih true
      | false =>
        simp only [collapseGo, hws, if_true]
        exact okAdj_cons ' ' _ (ih true) (Or.inr (headNotWs_collapseGo_true cs))
    · simp only [collapseGo, hws, if_false, Bool.false_eq_true]
      exact okAdj_cons c _ (ih false) (Or.inl (Bool.not_eq_true _ ▸ hws))

/-- Helper: every character the collapse loop emits is either not
whitespace or the ASCII space. -/
theorem mem_collapseGo_sp : ∀ (l : List Char) (b : Bool), ∀ c ∈ collapseGo b l,
    isPyWs c = false ∨ c = ' ' := by
  intro l
  induction l with
  | nil => intro b c hc; exact absurd hc (List.not_mem_nil c)
  | cons a cs ih =>
    intro b c hc
    by_cases hws : isPyWs a = true
    · cases b with
      | true =>
        rw [collapseGo, if_pos hws, if_pos rfl] at hc
        exact ih true c hc
      | false =>
        rw [collapseGo, if_pos hws] at hc
        simp only [Bool.false_eq_true, if_false] at hc
        rcases List.mem_cons.mp hc with rfl | hc'
        · exact Or.inr rfl
        · exact ih true c hc'
    · rw [collapseGo, if_neg hws] at hc
      rcases List.mem_cons.mp hc with rfl | hc'
      · exact Or.inl (by revert hws; cases isPyWs c <;> simp)
      · exact ih false c hc'

/-- Helper: every whitespace character the collapse loop emits is the
ASCII space. -/
theorem allWsSp_collapseGo (l : List Char) (b : Bool) :
    allWsSp (collapseGo b l) = true := by
  rw [allWsSp, List.all_eq_true]
  intro c hc
  rcases mem_collapseGo_sp l b c hc with h | h
  · simp [h]
  · simp [h]

/-- Helper: dropping leading whitespace leaves a non-whitespace head. -/
theorem headNotWs_dropWhile :
    ∀ l : List Char, headNotWs (l.dropWhile isPyWs) = true := by
  intro l
  induction l with
  | nil => rfl
  | cons c cs ih =>
    by_cases hws : isPyWs c = true
    · simpa [List.dropWhile_cons, hws] using ih
    · simp [List.dropWhile_cons, hws, headNotWs]

/-- Helper: adjacency-freedom restricts to suffixes. -/
theorem okAdj_suffix : ∀ (t s : List Char), okAdj (t ++ s) = true → okAdj s = true := by
  intro t
  induction t with
  | nil => intro s h; exact h
  | cons a t' ih => intro s h; exact ih s (okAdj_tail a _ h)

/-- Helper: adjacency-freedom restricts to prefixes. -/
theorem okAdj_of_append : ∀ (s t : List Char), okAdj (s ++ t) = true → okAdj s = true := by
  intro s
  induction s with
  | nil => intro t _; rfl
  | cons a s' ih =>
    intro t h
    cases s' with
    | nil => rfl
    | cons b s'' =>
      simp only [List.cons_append, okAdj, Bool.and_eq_true] at h ⊢
      exact ⟨h.1, ih t h.2⟩

/-- Helper: stripping returns a subset of the characters. -/
theorem mem_stripWsL (l : List Char) : ∀ c ∈ stripWsL l, c ∈ l := by
  intro c hc
  unfold stripWsL at hc
  rw [List.mem_reverse] at hc
  have h1 := (List.dropWhile_sublist (l := (l.dropWhile isPyWs).reverse)
    (p := isPyWs)).subset hc
  rw [List.mem_reverse] at h1
  exact (List.dropWhile_sublist (l := l) (p := isPyWs)).subset h1

/-- Helper: a character-subset inherits the all-spaces property. -/
theorem allWsSp_subset (l₁ l₂ : List Char) (hsub : ∀ c ∈ l₂, c ∈ l₁)
    (h : allWsSp l₁ = true) : allWsSp l₂ = true := by
  rw [allWsSp, List.all_eq_true] at h ⊢
  exact fun c hc => h c (hsub c hc)

/-- Helper: the stripped list is a prefix of the left-stripped list. -/
theorem stripWsL_decomp (l : List Char) :
    l.dropWhile isPyWs =
      stripWsL l ++ ((l.dropWhile isPyWs).reverse.takeWhile isPyWs).reverse := by
  unfold stripWsL
  have h := (List.takeWhile_append_dropWhile
    (p := isPyWs) (l := (l.dropWhile isPyWs).reverse)).symm
  calc l.dropWhile isPyWs = (l.dropWhile isPyWs).reverse.reverse := by
        rw [List.reverse_reverse]
    _ = (((l.dropWhile isPyWs).reverse.takeWhile isPyWs) ++
          ((l.dropWhile isPyWs).reverse.dropWhile isPyWs)).reverse := by rw [← h]
    _ = _ := by rw [List.reverse_append]

/-- Helper: stripping preserves adjacency-freedom. -/
theorem okAdj_stripWsL (l : List Char) (h : okAdj l = true) :
    okAdj (stripWsL l) = true := by
  have h1 : okAdj (l.dropWhile isPyWs) = true := by
    have hd := List.takeWhile_append_dropWhile (p := isPyWs) (l := l)
    exact okAdj_suffix (l.takeWhile isPyWs) _ (by rwa [hd])
  have h2 := stripWsL_decomp l
  exact okAdj_of_append _ _ (by rwa [← h2])

/-- Helper: stripping leaves a non-whitespace head. -/
theorem headNotWs_stripWsL (l : List Char) : headNotWs (stripWsL l) = true := by
  cases hfin : stripWsL l with
  | nil => rfl
  | cons a t =>
    have hdec := stripWsL_decomp l
    rw [hfin] at hdec
    have hhead := headNotWs_dropWhile l
    rw [hdec] at hhead
    simpa [headNotWs] using hhead

/-- Helper: stripping leaves a non-whitespace last character. -/
theorem lastNotWs_stripWsL (l : List Char) : headNotWs (stripWsL l).reverse = true := by
  unfold stripWsL
  rw [List.reverse_reverse]
  exact headNotWs_dropWhile _

/-- Helper: a list with no adjacent whitespace and only space as
whitespace is a fixed point of the collapse loop. -/
theorem collapseGo_fix : ∀ l : List Char, okAdj l = true → allWsSp l = true →
    (collapseGo false l = l ∧ (headNotWs l = true → collapseGo true l = l)) := by
  intro l
  induction l with
  | nil => exact fun _ _ => ⟨rfl, fun _ => rfl⟩
  | cons c cs ih =>
    intro hok hsp
    have hok' : okAdj cs = true := okAdj_tail c cs hok
    have hsp' : allWsSp cs = true := by
      rw [allWsSp, List.all_cons, Bool.and_eq_true] at hsp
      exact hsp.2
    by_cases hws : isPyWs c = true
    · have hc : c = ' ' := by
        rw [allWsSp, List.all_cons, Bool.and_eq_true] at hsp
        have h1 := hsp.1
        rw [hws] at h1
        simpa using h1
      have hcs : headNotWs cs = true := by
        cases cs with
        | nil => rfl
        | cons b t =>
          rw [okAdj, Bool.and_eq_true] at hok
          have h1 := hok.1
          rw [hws] at h1
          have hb : isPyWs b = false := by
            revert h1
            cases isPyWs b <;> simp
          simp [headNotWs, hb]
      have htrue : collapseGo true cs = cs := (ih hok' hsp').2 hcs
      constructor
      · rw [collapseGo, if_pos hws]
        simp only [Bool.false_eq_true, if_false]
        rw [htrue, hc]
      · intro habs
        rw [headNotWs] at habs
        simp only [List.head?_cons, hws] at habs
        simp at habs
    · constructor
      · rw [collapseGo, if_neg hws, (ih hok' hsp').1]
      · intro _
        rw [collapseGo, if_neg hws, (ih hok' hsp').1]

/-- Helper: nothing to drop when the head is not whitespace. -/
theorem dropWhile_of_headNotWs (l : List Char) (h : headNotWs l = true) :
    l.dropWhile isPyWs = l := by
  cases l with
  | nil => rfl
  | cons a t =>
    simp only [headNotWs, List.head?_cons] at h
    have ha : isPyWs a = false := by
      revert h
      cases isPyWs a <;> simp
    simp [List.dropWhile_cons, ha]

/-- Helper: a list with non-whitespace ends is a fixed point of the
strip. -/
theorem stripWsL_fix (l : List Char) (h1 : headNotWs l = true)
    (h2 : headNotWs l.reverse = true) : stripWsL l = l := by
  unfold stripWsL
  rw [dropWhile_of_headNotWs l h1, dropWhile_of_headNotWs l.reverse h2,
    List.reverse_reverse]

/-- Claim C10: `clean_text` (identical in scraper.py and
scraper_anf.py) always returns a string with no leading or trailing
whitespace and no two adjacent whitespace characters (every whitespace
run collapses to one ASCII space); and it is idempotent, given the
Unicode-standard property of the abstracted NFKC normalization that a
`clean_text` output is NFKC-fixed (NFKC is idempotent and normality
survives removal of whitespace across the blocking space). -/
theorem c10_clean_text_idempotent (nfkc : String → String)
    (H : ∀ u, nfkc (clean_text nfkc u) = clean_text nfkc u) (s : String) :
    clean_text nfkc (clean_text nfkc s) = clean_text nfkc s
    ∧ okAdj (clean_text nfkc s).data = true
    ∧ headNotWs (clean_text nfkc s).data = true
    ∧ headNotWs (clean_text nfkc s).data.reverse = true
    ∧ allWsSp (clean_text nfkc s).data = true := by
  have shape : ∀ t : String, okAdj (clean_text nfkc t).data = true
      ∧ headNotWs (clean_text nfkc t).data = true
      ∧ headNotWs (clean_text nfkc t).data.reverse = true
      ∧ allWsSp (clean_text nfkc t).data = true := by
    intro t
    unfold clean_text
    by_cases ht : t = ""
    · rw [if_pos ht]
      exact ⟨rfl, rfl, rfl, rfl⟩
    · rw [if_neg ht]
      show okAdj (stripWsL (collapseGo false (nfkc t).data)) = true ∧ _
      refine ⟨okAdj_stripWsL _ (okAdj_collapseGo _ false), headNotWs_stripWsL _,
        lastNotWs_stripWsL _, ?_⟩
      exact allWsSp_subset _ _ (mem_stripWsL _) (allWsSp_collapseGo _ false)
  refine ⟨?_, (shape s).1, (shape s).2.1, (shape s).2.2.1, (shape s).2.2.2⟩
  by_cases ht : clean_text nfkc s = ""
  · rw [ht]
    simp [clean_text]
  · have hfix : nfkc (clean_text nfkc s) = clean_text nfkc s := H s
    show (if clean_text nfkc s = "" then ""
      else stripWsStr (collapseWsStr (nfkc (clean_text nfkc s)))) = clean_text nfkc s
    rw [if_neg ht, hfix]
    have hsh := shape s
    have hcoll : collapseWsStr (clean_text nfkc s) = clean_text nfkc s := by
      have hd : collapseGo false (clean_text nfkc s).data = (clean_text nfkc s).data :=
        (collapseGo_fix _ hsh.1 hsh.2.2.2).1
      exact congrArg String.mk hd
    rw [hcoll]
    have hd2 : stripWsL (clean_text nfkc s).data = (clean_text nfkc s).data :=
      stripWsL_fix _ hsh.2.1 hsh.2.2.1
    exact congrArg String.mk hd2

/-- Witness for claim C10 with the identity in place of the abstract
NFKC normalization. -/
theorem c10_clean_text_witness :
    clean_text (fun s => s) (clean_text (fun s => s) "  a \t b  ") =
      clean_text (fun s => s) "  a \t b  " :=
  (c10_clean_text_idempotent (fun s => s) (fun _ => rfl) "  a \t b  ").1

end EdScrap
